import Mathlib

/-!
Verification of the trace-export subsystem (`ddtrace/tracer/handler.go`).

The file shallowly embeds the two trace writers of the source:

* `LambdaTraceWriter` — the log exporter (`lambdaTraceWriter`).  Its byte
  buffer is a `List Nat` of byte values; the JSON encoding of a single span
  (performed by Go's `encoding/json`, an external library) is abstracted as
  a parameter `enc : Span → Option Bytes`: `none` models an encoding error,
  `some js` the encoded object without the trailing newline (which the
  source cuts immediately after encoding).  Writes to the log sink
  (`os.Stdout.Write`) are logged in the `stdout` field, and each
  `traces_dropped` statsd increment is logged with its reason in `drops`.

* `AgentWriter` — the push exporter (`agentTraceWriter`), modelled as a
  labelled transition system because its flush is asynchronous and gated by
  a buffered channel of capacity `L` (`climit`).  The msgpack payload
  accumulator (`payload.go`, not part of the sources given) is modelled
  from the spec as `Payload`.
-/

set_option maxHeartbeats 1000000

namespace DDTrace

/-- A byte string, one `Nat` per byte. -/
abbrev Bytes := List Nat

/-- `payloadLimit = 256 * 1024`, the log line limit for cloudwatch. -/
def payloadLimit : Nat := 256 * 1024

/-- The bytes of the opening text written by `resetPayload`:
the twelve ASCII characters of the string `\x7b"traces": [`. -/
def tracesHeader : Bytes := [123, 34, 116, 114, 97, 99, 101, 115, 34, 58, 32, 91]

/-- State of `lambdaTraceWriter`: the `payload` buffer and `hasTraces` flag
from the source, plus the observable effect logs: `stdout` records each
byte string written to the log sink, `drops` records the reason tag of each
`traces_dropped` counter increment. -/
structure LambdaTraceWriter (Span : Type) where
  payload : Bytes
  hasTraces : Bool
  stdout : List Bytes
  drops : List String
deriving DecidableEq

namespace LambdaTraceWriter

variable {Span : Type}

/-- `resetPayload`: truncate the buffer to the opening text and clear
`hasTraces`. -/
def resetPayload (h : LambdaTraceWriter Span) : LambdaTraceWriter Span :=
  { h with payload := tracesHeader, hasTraces := false }

/-- The byte(s) opening a trace array: `[` for the first trace of a
payload, `, [` afterwards (lines 178-182 of the source). -/
def opener (hasTraces : Bool) : Bytes :=
  if hasTraces then [44, 32, 91] else [91]

/-- Result of the span loop inside `addTrace`: the buffer contents at loop
exit together with either the number of spans written or a drop reason. -/
inductive LoopRes where
  | done (payload : Bytes) (written : Nat)
  | fail (payload : Bytes) (dropReason : String)
deriving DecidableEq

/-- The `for i, s := range trace` loop of `addTrace` (lines 184-204).
`first` is `i == 0`; `hasTraces` and `startLen` are the values captured at
entry of `addTrace`; `p` is the current buffer and `written` the spans
written so far.  A comma is written before every span but the first, the
encoded span is appended (`addSpan`), and if the buffer then exceeds
`payloadLimit - 2` the loop rolls back: the whole trace (to `startLen`)
when the very first span of an otherwise empty payload is too big or the
encoding failed, otherwise to the span boundary `l` captured before the
comma. -/
def addTraceLoop (enc : Span → Option Bytes) (hasTraces : Bool) (startLen : Nat) :
    Bytes → List Span → Bool → Nat → LoopRes
  | p, [], _, written => .done p written
  | p, s :: rest, first, written =>
    let l := p.length
    let p1 := if first then p else p ++ [44]
    match enc s with
    | none => .fail (p1.take startLen) "encoding_failed"
    | some js =>
      let p2 := p1 ++ js
      if payloadLimit - 2 < p2.length then
        if first && !hasTraces then
          .fail (p2.take startLen) "trace_too_large"
        else
          .done (p2.take l) written
      else
        addTraceLoop enc hasTraces startLen p2 rest false (written + 1)

/-- Result of `addTrace`: either the number of spans written or the drop
reason of the `*encodingError` it returns. -/
inductive AddTraceRes where
  | ok (written : Nat)
  | err (dropReason : String)
deriving DecidableEq

/-- `addTrace` (lines 176-208): open a trace array, run the span loop, and
on success close the array with `]` and set `hasTraces`. -/
def addTrace (enc : Span → Option Bytes) (h : LambdaTraceWriter Span)
    (trace : List Span) : AddTraceRes × LambdaTraceWriter Span :=
  let startLen := h.payload.length
  let p0 := h.payload ++ opener h.hasTraces
  match addTraceLoop enc h.hasTraces startLen p0 trace true 0 with
  | .fail p reason => (.err reason, { h with payload := p })
  | .done p written =>
      (.ok written, { h with payload := p ++ [93], hasTraces := true })

/-- `flush` (lines 228-235): a no-op without traces; otherwise append the
closing `]\x7d`, write the whole buffer to the log sink, and reset. -/
def flush (h : LambdaTraceWriter Span) : LambdaTraceWriter Span :=
  if h.hasTraces then
    resetPayload { h with stdout := h.stdout ++ [h.payload ++ [93, 125]] }
  else h

/-- The `for len(trace) > 0` loop of `add` (lines 210-223), with an
explicit iteration budget `fuel` (the source loop has no bound of its own;
`addLoop_isSome` below proves `2 * trace.length + 1` iterations always
suffice, so the budget never alters behaviour).  Alongside the final state
it returns the chunk of spans written by each successful `addTrace` call,
i.e. the contents of each trace-array entry produced for this trace. -/
def addLoop (enc : Span → Option Bytes) :
    Nat → LambdaTraceWriter Span → List Span →
      Option (LambdaTraceWriter Span × List (List Span))
  | _, h, [] => some (h, [])
  | 0, _, _ :: _ => none
  | fuel + 1, h, s :: rest0 =>
    match addTrace enc h (s :: rest0) with
    | (.err reason, h1) =>
        some ({ h1 with drops := h1.drops ++ [reason] }, [])
    | (.ok written, h1) =>
        let rest := (s :: rest0).drop written
        if rest.isEmpty then some (h1, [(s :: rest0).take written])
        else
          match addLoop enc fuel (flush h1) rest with
          | none => none
          | some (h2, cs) => some (h2, (s :: rest0).take written :: cs)

/-- `add` (lines 210-223): run the loop with sufficient fuel and return the
final state. -/
def add (enc : Span → Option Bytes) (h : LambdaTraceWriter Span)
    (trace : List Span) : LambdaTraceWriter Span :=
  match addLoop enc (2 * trace.length + 1) h trace with
  | some (h1, _) => h1
  | none => h

/-- The trace-array chunks produced by one `add` call (one chunk per
successful `addTrace`, in order). -/
def addChunks (enc : Span → Option Bytes) (h : LambdaTraceWriter Span)
    (trace : List Span) : List (List Span) :=
  match addLoop enc (2 * trace.length + 1) h trace with
  | some (_, cs) => cs
  | none => []

/-- The two-part size invariant maintained across external calls: the
buffer stays below `payloadLimit - 1` bytes and every log-sink write so
far is at most `payloadLimit + 5` bytes. -/
def GoodState (h : LambdaTraceWriter Span) : Prop :=
  h.payload.length ≤ payloadLimit - 1 ∧
    ∀ b ∈ h.stdout, b.length ≤ payloadLimit + 5

end LambdaTraceWriter

/-- `newLambdaTraceWriter` (lines 131-137): fresh writer with a reset
payload and no effects yet. -/
def newLambdaTraceWriter (Span : Type) : LambdaTraceWriter Span :=
  LambdaTraceWriter.resetPayload ⟨[], false, [], []⟩

/-- An externally driven call on the log exporter: `add` with a trace, or
`flush`. -/
inductive LWOp (Span : Type) where
  | add (trace : List Span)
  | flush

/-- Apply one external call. -/
def LWOp.run (enc : Span → Option Bytes) (h : LambdaTraceWriter Span) :
    LWOp Span → LambdaTraceWriter Span
  | .add trace => h.add enc trace
  | .flush => h.flush

/-- Run a sequence of external calls on a fresh log exporter. -/
def runOps (enc : Span → Option Bytes) (ops : List (LWOp Span)) :
    LambdaTraceWriter Span :=
  ops.foldl (LWOp.run enc) (newLambdaTraceWriter Span)

/-- Span-by-span encoding of a list of spans; `none` as soon as one span
fails to encode. -/
def encodedSpans (enc : Span → Option Bytes) : List Span → Option (List Bytes)
  | [] => some []
  | s :: rest =>
    match enc s, encodedSpans enc rest with
    | some b, some bs => some (b :: bs)
    | _, _ => none

/-- Bytes contributed by the non-leading spans of a trace-array entry: a
comma before each encoded span. -/
def entryTail (es : List Bytes) : Bytes := (es.map (fun e => 44 :: e)).flatten

/-- Bytes between the brackets of a trace-array entry holding the encoded
spans `es`: the spans joined by commas. -/
def entryBody : List Bytes → Bytes
  | [] => []
  | e :: es => e ++ entryTail es

/-! ### The push exporter (`agentTraceWriter`) -/

/-- Modelled from the spec: the msgpack payload accumulator used by the
push exporter (`payload.go` is not among the given sources; handler.go only
calls `newPayload`, `push`, `size` and `itemCount`).  Per spec §2-3 it is
an append-only accumulator holding the pending traces in wire-ready form,
reporting encoded byte size and trace count, whose failed `push` leaves it
in its pre-append state.  `data` is the list of successfully appended
traces; sizes are derived from the trace-encoding size function `encT`
(`none` models an encoding failure). -/
structure Payload (Trace : Type) where
  data : List Trace
deriving DecidableEq

namespace Payload

variable {Trace : Type}

/-- Modelled from the spec: a freshly created, empty accumulator. -/
def newPayload : Payload Trace := ⟨[]⟩

/-- Modelled from the spec: the number of traces accumulated. -/
def itemCount (p : Payload Trace) : Nat := p.data.length

/-- Modelled from the spec: the encoded byte size of the accumulated
traces. -/
def size (encT : Trace → Option Nat) (p : Payload Trace) : Nat :=
  (p.data.map fun t => (encT t).getD 0).sum

/-- Modelled from the spec: append one trace; `none` (rollback, the caller
keeps the unchanged accumulator) when the trace cannot be encoded. -/
def push (encT : Trace → Option Nat) (p : Payload Trace) (t : Trace) :
    Option (Payload Trace) :=
  (encT t).map fun _ => ⟨p.data ++ [t]⟩

end Payload

/-- One statsd emission made by the push exporter. -/
inductive Metric where
  | dropped (reason : String) (count : Nat)
  | flushTriggered
  | flushBytes (n : Nat)
  | flushTraces (n : Nat)
  | decodeError
  | flushDuration
deriving DecidableEq

/-- Whether a metric is a `traces_dropped` count. -/
def Metric.isDrop : Metric → Bool
  | .dropped _ _ => true
  | _ => false

/-- Number of `traces_dropped` emissions in a metric log. -/
def dropCount (ms : List Metric) : Nat := (ms.filter Metric.isDrop).length

/-- State of `agentTraceWriter`: the current `payload`, the payloads owned
by delivery goroutines that have been launched but not finished (`tasks`;
its length is the number of `climit` slots held, and the `sync.WaitGroup`
counter), the payloads successfully handed to `transport.send` (`sends`),
and the log of statsd emissions (`metrics`). -/
structure AgentWriter (Trace : Type) where
  payload : Payload Trace
  tasks : List (Payload Trace)
  sends : List (Payload Trace)
  metrics : List Metric
deriving DecidableEq

/-- `newAgentTraceWriter` (lines 49-56): fresh payload, no goroutines, no
effects. -/
def newAgentTraceWriter (Trace : Type) : AgentWriter Trace :=
  ⟨Payload.newPayload, [], [], []⟩

/-- Externally observable events of the push exporter: a serialized caller
invokes `add` or `flush` (spec §5: callers are serialized), a delivery
goroutine finishes, or `stop` returns. -/
inductive ALabel (Trace : Type) where
  | add (t : Trace)
  | flushReq
  | taskDone
  | stopRet

/-- Small-step semantics of `agentTraceWriter`, parametrized by the trace
encoding size `encT`, the flush threshold `K` (`payloadSizeLimit`) and the
channel capacity `L` (`concurrentConnectionLimit`), both defined outside
the given sources.  Launching a delivery (lines 78-100) requires a free
`climit` slot — a send on the full buffered channel blocks, so no launch
step exists while `tasks.length = L`; the slot is released when the
goroutine finishes.  `add` (lines 58-67) pushes, counts an
`encoding_error` drop on failure, and when `size > K` emits
`flush_triggered` and performs the launch inline. -/
inductive AStep (encT : Trace → Option Nat) (K L : Nat) :
    AgentWriter Trace → ALabel Trace → AgentWriter Trace → Prop where
  | add_small {s : AgentWriter Trace} {t : Trace} {p1 : Payload Trace} :
      s.payload.push encT t = some p1 →
      p1.size encT ≤ K →
      AStep encT K L s (.add t) { s with payload := p1 }
  | add_flush {s : AgentWriter Trace} {t : Trace} {p1 : Payload Trace} :
      s.payload.push encT t = some p1 →
      K < p1.size encT →
      s.tasks.length < L →
      AStep encT K L s (.add t)
        { s with payload := Payload.newPayload, tasks := s.tasks ++ [p1],
                 metrics := s.metrics ++ [.flushTriggered] }
  | add_err_small {s : AgentWriter Trace} {t : Trace} :
      encT t = none →
      s.payload.size encT ≤ K →
      AStep encT K L s (.add t)
        { s with metrics := s.metrics ++ [.dropped "encoding_error" 1] }
  | add_err_flush {s : AgentWriter Trace} {t : Trace} :
      encT t = none →
      K < s.payload.size encT →
      s.tasks.length < L →
      AStep encT K L s (.add t)
        { s with payload := Payload.newPayload, tasks := s.tasks ++ [s.payload],
                 metrics := s.metrics ++
                   [.dropped "encoding_error" 1, .flushTriggered] }
  | flush_empty {s : AgentWriter Trace} :
      s.payload.itemCount = 0 →
      AStep encT K L s .flushReq s
  | flush_launch {s : AgentWriter Trace} :
      s.payload.itemCount ≠ 0 →
      s.tasks.length < L →
      AStep encT K L s .flushReq
        { s with payload := Payload.newPayload, tasks := s.tasks ++ [s.payload] }
  | task_done_ok {s : AgentWriter Trace} {pre post : List (Payload Trace)}
      {p : Payload Trace} (decodeFailed : Bool) :
      s.tasks = pre ++ p :: post →
      AStep encT K L s .taskDone
        { s with tasks := pre ++ post, sends := s.sends ++ [p],
                 metrics := s.metrics ++
                   [.flushBytes (p.size encT), .flushTraces p.itemCount] ++
                   (if decodeFailed then [.decodeError] else []) ++
                   [.flushDuration] }
  | task_done_fail {s : AgentWriter Trace} {pre post : List (Payload Trace)}
      {p : Payload Trace} :
      s.tasks = pre ++ p :: post →
      AStep encT K L s .taskDone
        { s with tasks := pre ++ post,
                 metrics := s.metrics ++
                   [.dropped "send_failed" p.itemCount, .flushDuration] }
  | stop_ret {s : AgentWriter Trace} :
      s.tasks = [] →
      AStep encT K L s .stopRet s

/-- States of the push exporter reachable from a fresh writer. -/
inductive AReachable (encT : Trace → Option Nat) (K L : Nat) :
    AgentWriter Trace → Prop where
  | init : AReachable encT K L (newAgentTraceWriter Trace)
  | step {s s' : AgentWriter Trace} {lbl : ALabel Trace} :
      AReachable encT K L s → AStep encT K L s lbl s' → AReachable encT K L s'

/-- A concrete push-exporter state holding one buffered, unflushed trace;
used by the concrete instantiations below. -/
def sampleAgentOneTrace : AgentWriter Unit :=
  { payload := ⟨[()]⟩, tasks := [], sends := [], metrics := [] }

/-- The state reached by flushing `sampleAgentOneTrace`: the buffered
payload is detached into a delivery task and a fresh payload installed. -/
def sampleAgentFlushed : AgentWriter Unit :=
  { sampleAgentOneTrace with
      payload := Payload.newPayload,
      tasks := sampleAgentOneTrace.tasks ++ [sampleAgentOneTrace.payload] }

/-- The state reached from a fresh push exporter by one successful `add`
of a single trace. -/
def sampleAgentAfterAdd : AgentWriter Unit :=
  { newAgentTraceWriter Unit with payload := ⟨[()]⟩ }

/-! ### Basic list facts -/

theorem take_append_le {α : Type _} {l1 l2 : List α} {n : Nat} (h : n ≤ l1.length) :
    (l1 ++ l2).take n = l1.take n := by
  rw [List.take_append_eq_append_take, Nat.sub_eq_zero_of_le h, List.take_zero,
    List.append_nil]

theorem ne_append_singleton {α : Type _} (l : List α) (a : α) : l ≠ l ++ [a] := by
  intro h
  have := congrArg List.length h
  simp at this

/-! ### Unfolding equations for the span loop -/

namespace LambdaTraceWriter

variable {Span : Type} {enc : Span → Option Bytes} {ht first : Bool} {sl w : Nat}
variable {p js : Bytes} {s : Span} {rest : List Span}

theorem addTraceLoop_nil :
    addTraceLoop enc ht sl p [] first w = .done p w := rfl

theorem addTraceLoop_cons_none (henc : enc s = none) :
    addTraceLoop enc ht sl p (s :: rest) first w =
      .fail ((if first then p else p ++ [44]).take sl) "encoding_failed" := by
  simp only [addTraceLoop, henc]

theorem addTraceLoop_cons_big (henc : enc s = some js)
    (hbig : payloadLimit - 2 < ((if first then p else p ++ [44]) ++ js).length)
    (hfst : (first && !ht) = true) :
    addTraceLoop enc ht sl p (s :: rest) first w =
      .fail (((if first then p else p ++ [44]) ++ js).take sl) "trace_too_large" := by
  simp only [addTraceLoop, henc, if_pos hbig, if_pos hfst]

theorem addTraceLoop_cons_brk (henc : enc s = some js)
    (hbig : payloadLimit - 2 < ((if first then p else p ++ [44]) ++ js).length)
    (hfst : ¬ (first && !ht) = true) :
    addTraceLoop enc ht sl p (s :: rest) first w =
      .done (((if first then p else p ++ [44]) ++ js).take p.length) w := by
  simp only [addTraceLoop, henc, if_pos hbig, if_neg hfst]

theorem addTraceLoop_cons_fits (henc : enc s = some js)
    (hbig : ¬ payloadLimit - 2 < ((if first then p else p ++ [44]) ++ js).length) :
    addTraceLoop enc ht sl p (s :: rest) first w =
      addTraceLoop enc ht sl ((if first then p else p ++ [44]) ++ js) rest false
        (w + 1) := by
  simp only [addTraceLoop, henc, if_neg hbig]

/-! ### Properties of the span loop -/

/-- The written counter only grows. -/
theorem addTraceLoop_written_le {trace : List Span} {p q : Bytes} {first : Bool}
    {w w' : Nat} (h : addTraceLoop enc ht sl p trace first w = .done q w') :
    w ≤ w' := by
  induction trace generalizing p first w with
  | nil => rw [addTraceLoop_nil] at h; cases h; exact Nat.le_refl _
  | cons s rest ih =>
    rcases henc : enc s with _ | js
    · rw [addTraceLoop_cons_none henc] at h; cases h
    · by_cases hbig :
        payloadLimit - 2 < ((if first then p else p ++ [44]) ++ js).length
      · by_cases hfst : (first && !ht) = true
        · rw [addTraceLoop_cons_big henc hbig hfst] at h; cases h
        · rw [addTraceLoop_cons_brk henc hbig hfst] at h; cases h
          exact Nat.le_refl _
      · rw [addTraceLoop_cons_fits henc hbig] at h
        exact Nat.le_of_succ_le (ih h)

/-- The loop writes at most the spans it was given. -/
theorem addTraceLoop_written_le_length {trace : List Span} {p q : Bytes}
    {first : Bool} {w w' : Nat}
    (h : addTraceLoop enc ht sl p trace first w = .done q w') :
    w' ≤ w + trace.length := by
  induction trace generalizing p first w with
  | nil => rw [addTraceLoop_nil] at h; cases h; exact Nat.le_refl _
  | cons s rest ih =>
    rcases henc : enc s with _ | js
    · rw [addTraceLoop_cons_none henc] at h; cases h
    · by_cases hbig :
        payloadLimit - 2 < ((if first then p else p ++ [44]) ++ js).length
      · by_cases hfst : (first && !ht) = true
        · rw [addTraceLoop_cons_big henc hbig hfst] at h; cases h
        · rw [addTraceLoop_cons_brk henc hbig hfst] at h; cases h
          exact Nat.le_add_right _ _
      · rw [addTraceLoop_cons_fits henc hbig] at h
        have := ih h
        simp only [List.length_cons]
        omega

/-- A failing loop run returns the buffer rolled back to `startLen`. -/
theorem addTraceLoop_fail_eq {trace : List Span} {p q : Bytes} {first : Bool}
    {w : Nat} {r : String} (hsl : sl ≤ p.length)
    (h : addTraceLoop enc ht sl p trace first w = .fail q r) :
    q = p.take sl := by
  induction trace generalizing p first w with
  | nil => rw [addTraceLoop_nil] at h; cases h
  | cons s rest ih =>
    rcases henc : enc s with _ | js
    · rw [addTraceLoop_cons_none henc] at h; cases h
      cases first <;> simp [take_append_le hsl]
    · by_cases hbig :
        payloadLimit - 2 < ((if first then p else p ++ [44]) ++ js).length
      · by_cases hfst : (first && !ht) = true
        · rw [addTraceLoop_cons_big henc hbig hfst] at h; cases h
          cases first <;> simp [List.append_assoc, take_append_le hsl]
        · rw [addTraceLoop_cons_brk henc hbig hfst] at h; cases h
      · rw [addTraceLoop_cons_fits henc hbig] at h
        have hsl2 : sl ≤ ((if first then p else p ++ [44]) ++ js).length := by
          cases first <;> simp <;> omega
        have := ih hsl2 h
        rw [this]
        cases first <;> simp [List.append_assoc, take_append_le hsl]

/-- A failing loop run reports one of the two drop reasons of the source. -/
theorem addTraceLoop_fail_reason {trace : List Span} {p q : Bytes} {first : Bool}
    {w : Nat} {r : String}
    (h : addTraceLoop enc ht sl p trace first w = .fail q r) :
    r = "encoding_failed" ∨ r = "trace_too_large" := by
  induction trace generalizing p first w with
  | nil => rw [addTraceLoop_nil] at h; cases h
  | cons s rest ih =>
    rcases henc : enc s with _ | js
    · rw [addTraceLoop_cons_none henc] at h; cases h; exact Or.inl rfl
    · by_cases hbig :
        payloadLimit - 2 < ((if first then p else p ++ [44]) ++ js).length
      · by_cases hfst : (first && !ht) = true
        · rw [addTraceLoop_cons_big henc hbig hfst] at h; cases h
          exact Or.inr rfl
        · rw [addTraceLoop_cons_brk henc hbig hfst] at h; cases h
      · rw [addTraceLoop_cons_fits henc hbig] at h
        exact ih h

/-- A successful loop run preserves the first `startLen` buffer bytes. -/
theorem addTraceLoop_done_take {trace : List Span} {p q : Bytes} {first : Bool}
    {w w' : Nat} (hsl : sl ≤ p.length)
    (h : addTraceLoop enc ht sl p trace first w = .done q w') :
    q.take sl = p.take sl ∧ sl ≤ q.length := by
  induction trace generalizing p first w with
  | nil => rw [addTraceLoop_nil] at h; cases h; exact ⟨rfl, hsl⟩
  | cons s rest ih =>
    rcases henc : enc s with _ | js
    · rw [addTraceLoop_cons_none henc] at h; cases h
    · by_cases hbig :
        payloadLimit - 2 < ((if first then p else p ++ [44]) ++ js).length
      · by_cases hfst : (first && !ht) = true
        · rw [addTraceLoop_cons_big henc hbig hfst] at h; cases h
        · rw [addTraceLoop_cons_brk henc hbig hfst] at h; cases h
          constructor
          · rw [List.take_take, Nat.min_eq_left hsl]
            cases first <;> simp [List.append_assoc, take_append_le hsl]
          · rw [List.length_take]
            cases first <;> simp <;> omega
      · rw [addTraceLoop_cons_fits henc hbig] at h
        have hsl2 : sl ≤ ((if first then p else p ++ [44]) ++ js).length := by
          cases first <;> simp <;> omega
        have hih := ih hsl2 h
        refine ⟨?_, hih.2⟩
        rw [hih.1]
        cases first <;> simp [List.append_assoc, take_append_le hsl]

/-- Buffer bound after a successful loop run: the result never exceeds the
larger of the entry buffer (at most `startLen` plus the 3-byte opener) and
the `payloadLimit - 2` threshold, because every span whose append crosses
the threshold is rolled back. -/
theorem addTraceLoop_done_length {trace : List Span} {p q : Bytes} {first : Bool}
    {w w' : Nat}
    (hfst : first = true → p.length ≤ sl + 3)
    (hrest : first = false → p.length ≤ payloadLimit - 2)
    (h : addTraceLoop enc ht sl p trace first w = .done q w') :
    q.length ≤ max (sl + 3) (payloadLimit - 2) := by
  induction trace generalizing p first w with
  | nil =>
    rw [addTraceLoop_nil] at h; cases h
    cases first
    · exact Nat.le_trans (hrest rfl) (Nat.le_max_right _ _)
    · exact Nat.le_trans (hfst rfl) (Nat.le_max_left _ _)
  | cons s rest ih =>
    rcases henc : enc s with _ | js
    · rw [addTraceLoop_cons_none henc] at h; cases h
    · by_cases hbig :
        payloadLimit - 2 < ((if first then p else p ++ [44]) ++ js).length
      · by_cases hfst2 : (first && !ht) = true
        · rw [addTraceLoop_cons_big henc hbig hfst2] at h; cases h
        · rw [addTraceLoop_cons_brk henc hbig hfst2] at h; cases h
          have hq : (((if first then p else p ++ [44]) ++ js).take p.length).length
              ≤ p.length := by
            rw [List.length_take]; omega
          cases first
          · exact Nat.le_trans (Nat.le_trans hq (hrest rfl)) (Nat.le_max_right _ _)
          · exact Nat.le_trans (Nat.le_trans hq (hfst rfl)) (Nat.le_max_left _ _)
      · rw [addTraceLoop_cons_fits henc hbig] at h
        refine ih ?_ ?_ h
        · exact fun hc => nomatch hc
        · exact fun _ => Nat.le_of_not_lt hbig

/-- When the loop writes the whole (nonempty) trace, the final span passed
the size check, so the buffer is at most `payloadLimit - 2`. -/
theorem addTraceLoop_done_full {trace : List Span} {p q : Bytes} {first : Bool}
    {w w' : Nat} (hne : trace ≠ [])
    (h : addTraceLoop enc ht sl p trace first w = .done q w')
    (hw : w' = w + trace.length) :
    q.length ≤ payloadLimit - 2 := by
  induction trace generalizing p first w with
  | nil => exact absurd rfl hne
  | cons s rest ih =>
    rcases henc : enc s with _ | js
    · rw [addTraceLoop_cons_none henc] at h; cases h
    · by_cases hbig :
        payloadLimit - 2 < ((if first then p else p ++ [44]) ++ js).length
      · by_cases hfst : (first && !ht) = true
        · rw [addTraceLoop_cons_big henc hbig hfst] at h; cases h
        · rw [addTraceLoop_cons_brk henc hbig hfst] at h; cases h
          simp only [List.length_cons] at hw
          omega
      · rw [addTraceLoop_cons_fits henc hbig] at h
        cases rest with
        | nil =>
          rw [addTraceLoop_nil] at h; cases h
          exact Nat.le_of_not_lt hbig
        | cons r rs =>
          refine ih (by simp) h ?_
          simp only [List.length_cons] at hw ⊢
          omega

/-- A successful loop run that writes zero spans of a nonempty trace can
only happen via the break branch, which requires `hasTraces`. -/
theorem addTraceLoop_zero_ht {p q : Bytes} {w : Nat}
    (h : addTraceLoop enc ht sl p (s :: rest) true w = .done q w) :
    ht = true := by
  rcases henc : enc s with _ | js
  · rw [addTraceLoop_cons_none henc] at h; cases h
  · by_cases hbig : payloadLimit - 2 < ((if true then p else p ++ [44]) ++ js).length
    · by_cases hfst : (true && !ht) = true
      · rw [addTraceLoop_cons_big henc hbig hfst] at h; cases h
      · simpa using hfst
    · rw [addTraceLoop_cons_fits henc hbig] at h
      have := addTraceLoop_written_le h
      omega

end LambdaTraceWriter

theorem encodedSpans_nil {Span : Type} {enc : Span → Option Bytes} :
    encodedSpans enc [] = some [] := rfl

theorem encodedSpans_cons {Span : Type} {enc : Span → Option Bytes} {s : Span}
    {rest : List Span} {b : Bytes} {bs : List Bytes} (h1 : enc s = some b)
    (h2 : encodedSpans enc rest = some bs) :
    encodedSpans enc (s :: rest) = some (b :: bs) := by
  simp only [encodedSpans, h1, h2]

theorem encodedSpans_append {Span : Type} {enc : Span → Option Bytes}
    {l1 l2 : List Span} {b1 b2 : List Bytes}
    (h1 : encodedSpans enc l1 = some b1) (h2 : encodedSpans enc l2 = some b2) :
    encodedSpans enc (l1 ++ l2) = some (b1 ++ b2) := by
  induction l1 generalizing b1 with
  | nil => rw [encodedSpans_nil] at h1; cases h1; simpa using h2
  | cons s rest ih =>
    simp only [encodedSpans] at h1
    rcases he : enc s with _ | b <;> rw [he] at h1
    · cases h1
    · rcases hr : encodedSpans enc rest with _ | bs <;> rw [hr] at h1
      · cases h1
      · cases h1
        exact encodedSpans_cons he (ih hr)

theorem entryTail_nil : entryTail [] = [] := rfl

theorem entryTail_cons {e : Bytes} {es : List Bytes} :
    entryTail (e :: es) = 44 :: (e ++ entryTail es) := by
  simp [entryTail]

namespace LambdaTraceWriter

variable {Span : Type} {enc : Span → Option Bytes} {ht : Bool} {sl : Nat}
variable {s : Span} {rest : List Span}

/-- Payload characterization of a successful loop run: the buffer grows by
exactly the encodings of the written spans, joined by commas (with a
leading comma when the entry already has spans). -/
theorem addTraceLoop_done_payload {trace : List Span} {p q : Bytes}
    {first : Bool} {w w' : Nat}
    (h : addTraceLoop enc ht sl p trace first w = .done q w') :
    ∃ es, encodedSpans enc (trace.take (w' - w)) = some es ∧
      q = p ++ (if first then entryBody es else entryTail es) := by
  induction trace generalizing p first w with
  | nil =>
    rw [addTraceLoop_nil] at h; cases h
    refine ⟨[], by simp [encodedSpans_nil], ?_⟩
    cases first <;> simp [entryBody, entryTail_nil]
  | cons s rest ih =>
    rcases henc : enc s with _ | js
    · rw [addTraceLoop_cons_none henc] at h; cases h
    · by_cases hbig :
        payloadLimit - 2 < ((if first then p else p ++ [44]) ++ js).length
      · by_cases hfst : (first && !ht) = true
        · rw [addTraceLoop_cons_big henc hbig hfst] at h; cases h
        · rw [addTraceLoop_cons_brk henc hbig hfst] at h; cases h
          refine ⟨[], by simp [encodedSpans_nil], ?_⟩
          have hq : ((if first then p else p ++ [44]) ++ js).take p.length = p := by
            cases first
            · rw [if_neg (by simp), List.append_assoc,
                take_append_le (Nat.le_refl p.length), List.take_length]
            · rw [if_pos rfl, take_append_le (Nat.le_refl p.length), List.take_length]
          rw [hq]
          cases first <;> simp [entryBody, entryTail_nil]
      · rw [addTraceLoop_cons_fits henc hbig] at h
        have hle := addTraceLoop_written_le h
        obtain ⟨es, hes, hq⟩ := ih h
        refine ⟨js :: es, ?_, ?_⟩
        · have htake : (s :: rest).take (w' - w) = s :: rest.take (w' - (w + 1)) := by
            have : w' - w = (w' - (w + 1)) + 1 := by omega
            rw [this, List.take_succ_cons]
          rw [htake]
          exact encodedSpans_cons henc hes
        · rw [hq]
          cases first <;> simp [entryBody, entryTail_cons, List.append_assoc]

/-! ### Properties of `addTrace` -/

theorem opener_length_le (b : Bool) : (opener b).length ≤ 3 := by
  cases b <;> simp [opener]

theorem addTrace_eq_fail {h : LambdaTraceWriter Span} {trace : List Span}
    {p : Bytes} {r : String}
    (hl : addTraceLoop enc h.hasTraces h.payload.length
        (h.payload ++ opener h.hasTraces) trace true 0 = .fail p r) :
    addTrace enc h trace = (.err r, { h with payload := p }) := by
  simp only [addTrace, hl]

theorem addTrace_eq_done {h : LambdaTraceWriter Span} {trace : List Span}
    {p : Bytes} {w : Nat}
    (hl : addTraceLoop enc h.hasTraces h.payload.length
        (h.payload ++ opener h.hasTraces) trace true 0 = .done p w) :
    addTrace enc h trace =
      (.ok w, { h with payload := p ++ [93], hasTraces := true }) := by
  simp only [addTrace, hl]

/-- A failed `addTrace` rolls everything back: the writer is unchanged, and
the reported reason is one of the two of the source. -/
theorem addTrace_err {h h' : LambdaTraceWriter Span} {trace : List Span}
    {r : String} (he : addTrace enc h trace = (.err r, h')) :
    h' = h ∧ (r = "encoding_failed" ∨ r = "trace_too_large") := by
  rcases hl : addTraceLoop enc h.hasTraces h.payload.length
      (h.payload ++ opener h.hasTraces) trace true 0 with ⟨p, w⟩ | ⟨p, r'⟩
  · rw [addTrace_eq_done hl] at he
    simp at he
  · rw [addTrace_eq_fail hl] at he
    have hsl : h.payload.length ≤ (h.payload ++ opener h.hasTraces).length := by
      simp
    have hp : p = h.payload := by
      rw [addTraceLoop_fail_eq hsl hl, take_append_le (Nat.le_refl _),
        List.take_length]
    simp only [Prod.mk.injEq, AddTraceRes.err.injEq] at he
    obtain ⟨hr, hh⟩ := he
    subst hr
    refine ⟨?_, addTraceLoop_fail_reason hl⟩
    rw [← hh, hp]

/-- A successful `addTrace` appends exactly one trace-array entry: the
opener, the encodings of the first `w` spans joined by commas, and the
closing bracket; it touches nothing else and sets `hasTraces`. -/
theorem addTrace_ok {h h' : LambdaTraceWriter Span} {trace : List Span}
    {w : Nat} (he : addTrace enc h trace = (.ok w, h')) :
    ∃ es, encodedSpans enc (trace.take w) = some es ∧
      h' = { h with
              payload := h.payload ++ opener h.hasTraces ++ entryBody es ++ [93],
              hasTraces := true } := by
  rcases hl : addTraceLoop enc h.hasTraces h.payload.length
      (h.payload ++ opener h.hasTraces) trace true 0 with ⟨p, w'⟩ | ⟨p, r'⟩
  · rw [addTrace_eq_done hl] at he
    simp only [Prod.mk.injEq, AddTraceRes.ok.injEq] at he
    obtain ⟨hw, hh⟩ := he
    subst hw
    obtain ⟨es, hes, hq⟩ := addTraceLoop_done_payload hl
    refine ⟨es, by simpa using hes, ?_⟩
    rw [← hh, hq]
    simp [List.append_assoc]
  · rw [addTrace_eq_fail hl] at he
    simp at he

/-- `addTrace` never writes more spans than the trace has. -/
theorem addTrace_ok_w_le {h h' : LambdaTraceWriter Span} {trace : List Span}
    {w : Nat} (he : addTrace enc h trace = (.ok w, h')) : w ≤ trace.length := by
  rcases hl : addTraceLoop enc h.hasTraces h.payload.length
      (h.payload ++ opener h.hasTraces) trace true 0 with ⟨p, w'⟩ | ⟨p, r'⟩
  · rw [addTrace_eq_done hl] at he
    simp only [Prod.mk.injEq, AddTraceRes.ok.injEq] at he
    obtain ⟨hw, _⟩ := he
    subst hw
    simpa using addTraceLoop_written_le_length hl
  · rw [addTrace_eq_fail hl] at he
    simp at he

/-- Buffer bound after a successful `addTrace`. -/
theorem addTrace_ok_le {h h' : LambdaTraceWriter Span} {trace : List Span}
    {w : Nat} (he : addTrace enc h trace = (.ok w, h')) :
    h'.payload.length ≤ max (h.payload.length + 4) (payloadLimit - 1) := by
  rcases hl : addTraceLoop enc h.hasTraces h.payload.length
      (h.payload ++ opener h.hasTraces) trace true 0 with ⟨p, w'⟩ | ⟨p, r'⟩
  · rw [addTrace_eq_done hl] at he
    simp only [Prod.mk.injEq, AddTraceRes.ok.injEq] at he
    obtain ⟨_, hh⟩ := he
    have hq : p.length ≤ max (h.payload.length + 3) (payloadLimit - 2) := by
      refine addTraceLoop_done_length ?_ ?_ hl
      · intro _
        simp only [List.length_append]
        have := opener_length_le h.hasTraces
        omega
      · exact fun hc => nomatch hc
    rw [← hh]
    simp only [List.length_append, List.length_cons, List.length_nil]
    omega
  · rw [addTrace_eq_fail hl] at he
    simp at he

/-- When a successful `addTrace` wrote the whole nonempty trace, the buffer
is below `payloadLimit - 1`. -/
theorem addTrace_ok_full {h h' : LambdaTraceWriter Span} {trace : List Span}
    {w : Nat} (hne : trace ≠ []) (hwfull : trace.length ≤ w)
    (he : addTrace enc h trace = (.ok w, h')) :
    h'.payload.length ≤ payloadLimit - 1 := by
  rcases hl : addTraceLoop enc h.hasTraces h.payload.length
      (h.payload ++ opener h.hasTraces) trace true 0 with ⟨p, w'⟩ | ⟨p, r'⟩
  · rw [addTrace_eq_done hl] at he
    simp only [Prod.mk.injEq, AddTraceRes.ok.injEq] at he
    obtain ⟨hw, hh⟩ := he
    subst hw
    have hle := addTraceLoop_written_le_length hl
    have hq := addTraceLoop_done_full hne hl (by omega)
    have hpl : payloadLimit = 262144 := rfl
    rw [← hh]
    simp only [List.length_append, List.length_cons, List.length_nil]
    omega
  · rw [addTrace_eq_fail hl] at he
    simp at he

/-- A successful `addTrace` that wrote zero spans of a nonempty trace is
only possible when the payload already had traces. -/
theorem addTrace_zero_ht {h h' : LambdaTraceWriter Span}
    (he : addTrace enc h (s :: rest) = (.ok 0, h')) : h.hasTraces = true := by
  rcases hl : addTraceLoop enc h.hasTraces h.payload.length
      (h.payload ++ opener h.hasTraces) (s :: rest) true 0 with ⟨p, w'⟩ | ⟨p, r'⟩
  · rw [addTrace_eq_done hl] at he
    simp only [Prod.mk.injEq, AddTraceRes.ok.injEq] at he
    obtain ⟨hw, _⟩ := he
    subst hw
    exact addTraceLoop_zero_ht hl
  · rw [addTrace_eq_fail hl] at he
    simp at he

/-! ### Properties of `flush` -/

theorem flush_of_hasTraces {h : LambdaTraceWriter Span} (hh : h.hasTraces = true) :
    h.flush = { payload := tracesHeader, hasTraces := false,
                stdout := h.stdout ++ [h.payload ++ [93, 125]],
                drops := h.drops } := by
  simp [flush, resetPayload, hh]

theorem flush_of_not_hasTraces {h : LambdaTraceWriter Span}
    (hh : h.hasTraces = false) : h.flush = h := by
  simp [flush, hh]

theorem flush_drops (h : LambdaTraceWriter Span) : h.flush.drops = h.drops := by
  by_cases hh : h.hasTraces
  · rw [flush_of_hasTraces hh]
  · rw [flush_of_not_hasTraces (by simpa using hh)]

/-! ### Unfolding equations for the `add` loop -/

theorem addLoop_nil {fuel : Nat} {h : LambdaTraceWriter Span} :
    addLoop enc fuel h [] = some (h, []) := by
  cases fuel <;> rfl

theorem addLoop_zero {h : LambdaTraceWriter Span} :
    addLoop enc 0 h (s :: rest) = none := rfl

theorem addLoop_succ_err {fuel : Nat} {h h1 : LambdaTraceWriter Span} {r : String}
    (he : addTrace enc h (s :: rest) = (.err r, h1)) :
    addLoop enc (fuel + 1) h (s :: rest) =
      some ({ h1 with drops := h1.drops ++ [r] }, []) := by
  simp only [addLoop, he]

theorem addLoop_succ_ok_all {fuel : Nat} {h h1 : LambdaTraceWriter Span} {w : Nat}
    (he : addTrace enc h (s :: rest) = (.ok w, h1))
    (hall : (s :: rest).length ≤ w) :
    addLoop enc (fuel + 1) h (s :: rest) = some (h1, [(s :: rest).take w]) := by
  simp only [addLoop, he]
  rw [if_pos]
  rw [List.isEmpty_iff]
  exact List.drop_eq_nil_of_le hall

theorem addLoop_succ_ok_rest {fuel : Nat} {h h1 : LambdaTraceWriter Span} {w : Nat}
    (he : addTrace enc h (s :: rest) = (.ok w, h1))
    (hlt : w < (s :: rest).length) :
    addLoop enc (fuel + 1) h (s :: rest) =
      match addLoop enc fuel h1.flush ((s :: rest).drop w) with
      | none => none
      | some (h2, cs) => some (h2, (s :: rest).take w :: cs) := by
  simp only [addLoop, he]
  rw [if_neg]
  simp only [List.isEmpty_eq_true]
  refine List.ne_nil_of_length_pos ?_
  rw [List.length_drop]
  omega

/-! ### Properties of the `add` loop -/

/-- Fuel sufficiency: `2 * trace.length + 1` iterations always complete the
`add` loop, so the source loop terminates on every finite trace.  Each
iteration either writes at least one span, or (break with zero spans
written, which forces `hasTraces`) is followed by a flush that clears
`hasTraces`, after which a zero-span success is impossible. -/
theorem addLoop_isSome {fuel : Nat} {h : LambdaTraceWriter Span}
    {trace : List Span}
    (hfuel : 2 * trace.length + (if h.hasTraces then 1 else 0) ≤ fuel) :
    (addLoop enc fuel h trace).isSome := by
  induction fuel generalizing h trace with
  | zero =>
    cases trace with
    | nil => rw [addLoop_nil]; rfl
    | cons s rest =>
      exfalso
      cases hht : h.hasTraces <;> rw [hht] at hfuel <;>
        simp only [List.length_cons] at hfuel <;> omega
  | succ fuel ih =>
    cases trace with
    | nil => rw [addLoop_nil]; rfl
    | cons s rest =>
      rcases he : addTrace enc h (s :: rest) with ⟨res, h1⟩
      cases res with
      | err r => rw [addLoop_succ_err he]; rfl
      | ok w =>
        by_cases hall : (s :: rest).length ≤ w
        · rw [addLoop_succ_ok_all he hall]; rfl
        · have hlt : w < (s :: rest).length := Nat.lt_of_not_le hall
          rw [addLoop_succ_ok_rest he hlt]
          obtain ⟨es, hes, hh1⟩ := addTrace_ok he
          have hht1 : h1.hasTraces = true := by rw [hh1]
          have hrec : (addLoop enc fuel h1.flush ((s :: rest).drop w)).isSome := by
            apply ih
            rw [flush_of_hasTraces hht1]
            simp only [List.length_drop, List.length_cons]
            norm_num
            rcases Nat.eq_zero_or_pos w with hw0 | hwpos
            · subst hw0
              have hht : h.hasTraces = true := addTrace_zero_ht he
              rw [hht] at hfuel
              simp only [List.length_cons, if_true] at hfuel
              norm_num at hfuel
              omega
            · cases hht : h.hasTraces <;> rw [hht] at hfuel <;>
                simp only [List.length_cons] at hfuel <;> norm_num at hfuel <;> omega
          rcases hres : addLoop enc fuel h1.flush ((s :: rest).drop w) with _ | ⟨h2, cs⟩
          · rw [hres] at hrec; cases hrec
          · rfl

/-- The loop only ever appends to the log-sink write log. -/
theorem addLoop_stdout_mono {fuel : Nat} {h h' : LambdaTraceWriter Span}
    {trace : List Span} {cs : List (List Span)}
    (hl : addLoop enc fuel h trace = some (h', cs)) :
    ∃ ws, h'.stdout = h.stdout ++ ws := by
  induction fuel generalizing h trace cs with
  | zero =>
    cases trace with
    | nil => rw [addLoop_nil] at hl; cases hl; exact ⟨[], by simp⟩
    | cons s rest => rw [addLoop_zero] at hl; cases hl
  | succ fuel ih =>
    cases trace with
    | nil => rw [addLoop_nil] at hl; cases hl; exact ⟨[], by simp⟩
    | cons s rest =>
      rcases he : addTrace enc h (s :: rest) with ⟨res, h1⟩
      cases res with
      | err r =>
        rw [addLoop_succ_err he] at hl; cases hl
        obtain ⟨hh1, _⟩ := addTrace_err he
        subst hh1
        exact ⟨[], by simp⟩
      | ok w =>
        obtain ⟨es, hes, hh1⟩ := addTrace_ok he
        by_cases hall : (s :: rest).length ≤ w
        · rw [addLoop_succ_ok_all he hall] at hl; cases hl
          rw [hh1]
          exact ⟨[], by simp⟩
        · have hlt : w < (s :: rest).length := Nat.lt_of_not_le hall
          rw [addLoop_succ_ok_rest he hlt] at hl
          rcases hres : addLoop enc fuel h1.flush ((s :: rest).drop w)
            with _ | ⟨h2, cs'⟩ <;> rw [hres] at hl
          · cases hl
          · cases hl
            obtain ⟨ws, hws⟩ := ih hres
            have hht1 : h1.hasTraces = true := by rw [hh1]
            rw [flush_of_hasTraces hht1] at hws
            refine ⟨[h1.payload ++ [93, 125]] ++ ws, ?_⟩
            rw [hws, hh1]
            simp [List.append_assoc]

/-- Failure characterization of the `add` loop: when the drop log changed,
it grew by exactly one of the two source reasons; and when additionally no
flush happened during the call, the buffer and flag are untouched
(rollback to the pre-call state). -/
theorem addLoop_fail_char {fuel : Nat} {h h' : LambdaTraceWriter Span}
    {trace : List Span} {cs : List (List Span)}
    (hl : addLoop enc fuel h trace = some (h', cs)) (hne : h'.drops ≠ h.drops) :
    ∃ r, (r = "encoding_failed" ∨ r = "trace_too_large") ∧
      h'.drops = h.drops ++ [r] ∧
      (h'.stdout = h.stdout → h'.payload = h.payload ∧ h'.hasTraces = h.hasTraces) := by
  induction fuel generalizing h trace cs with
  | zero =>
    cases trace with
    | nil => rw [addLoop_nil] at hl; cases hl; exact absurd rfl hne
    | cons s rest => rw [addLoop_zero] at hl; cases hl
  | succ fuel ih =>
    cases trace with
    | nil => rw [addLoop_nil] at hl; cases hl; exact absurd rfl hne
    | cons s rest =>
      rcases he : addTrace enc h (s :: rest) with ⟨res, h1⟩
      cases res with
      | err r =>
        rw [addLoop_succ_err he] at hl; cases hl
        obtain ⟨hh1, hr⟩ := addTrace_err he
        subst hh1
        exact ⟨r, hr, rfl, fun _ => ⟨rfl, rfl⟩⟩
      | ok w =>
        obtain ⟨es, hes, hh1⟩ := addTrace_ok he
        by_cases hall : (s :: rest).length ≤ w
        · rw [addLoop_succ_ok_all he hall] at hl; cases hl
          rw [hh1] at hne
          exact absurd rfl hne
        · have hlt : w < (s :: rest).length := Nat.lt_of_not_le hall
          rw [addLoop_succ_ok_rest he hlt] at hl
          rcases hres : addLoop enc fuel h1.flush ((s :: rest).drop w)
            with _ | ⟨h2, cs'⟩ <;> rw [hres] at hl
          · cases hl
          · cases hl
            have hht1 : h1.hasTraces = true := by rw [hh1]
            have hfl := flush_of_hasTraces hht1
            have hdr1 : h1.flush.drops = h.drops := by rw [hfl, hh1]
            have hne2 : h'.drops ≠ h1.flush.drops := by rw [hdr1]; exact hne
            obtain ⟨r, hr, hdr, _⟩ := ih hres hne2
            refine ⟨r, hr, by rw [hdr, hdr1], ?_⟩
            intro habs
            exfalso
            obtain ⟨ws, hws⟩ := addLoop_stdout_mono hres
            rw [hws, hfl, hh1] at habs
            have := congrArg List.length habs
            simp at this

/-- Success characterization of the `add` loop: if no drop was recorded,
the produced chunks partition the trace in order, every chunk's spans
encode successfully (the concatenation of the per-chunk encodings being
the encoding of the whole trace), one flushed payload was emitted per
chunk but the last, and a single-chunk call appends exactly one
trace-array entry to the buffer with no flush at all. -/
theorem addLoop_ok_char {fuel : Nat} {h h' : LambdaTraceWriter Span}
    {trace : List Span} {cs : List (List Span)}
    (hl : addLoop enc fuel h trace = some (h', cs)) (hsucc : h'.drops = h.drops) :
    cs.flatten = trace ∧
    (∃ ess, List.Forall₂ (fun c es => encodedSpans enc c = some es) cs ess ∧
      encodedSpans enc trace = some ess.flatten) ∧
    h'.stdout.length = h.stdout.length + (cs.length - 1) ∧
    (∀ c, cs = [c] →
      h'.stdout = h.stdout ∧
      ∃ es, encodedSpans enc c = some es ∧
        h' = { h with
                payload := h.payload ++ opener h.hasTraces ++ entryBody es ++ [93],
                hasTraces := true }) := by
  induction fuel generalizing h trace cs with
  | zero =>
    cases trace with
    | nil =>
      rw [addLoop_nil] at hl; cases hl
      exact ⟨rfl, ⟨[], List.Forall₂.nil, rfl⟩, by simp, fun c hc => nomatch hc⟩
    | cons s rest => rw [addLoop_zero] at hl; cases hl
  | succ fuel ih =>
    cases trace with
    | nil =>
      rw [addLoop_nil] at hl; cases hl
      exact ⟨rfl, ⟨[], List.Forall₂.nil, rfl⟩, by simp, fun c hc => nomatch hc⟩
    | cons s rest =>
      rcases he : addTrace enc h (s :: rest) with ⟨res, h1⟩
      cases res with
      | err r =>
        rw [addLoop_succ_err he] at hl; cases hl
        obtain ⟨hh1, _⟩ := addTrace_err he
        subst hh1
        have hbad : h1.drops ++ [r] = h1.drops := hsucc
        exact absurd hbad.symm (ne_append_singleton _ _)
      | ok w =>
        obtain ⟨es, hes, hh1⟩ := addTrace_ok he
        by_cases hall : (s :: rest).length ≤ w
        · rw [addLoop_succ_ok_all he hall] at hl; cases hl
          have htk : (s :: rest).take w = s :: rest := List.take_of_length_le hall
          rw [htk] at hes
          refine ⟨by simp [htk], ⟨[es], ?_, by simpa using hes⟩, by rw [hh1]; simp, ?_⟩
          · exact List.Forall₂.cons (by rw [htk]; exact hes) List.Forall₂.nil
          · intro c hc
            rw [List.cons.injEq] at hc
            obtain ⟨hc1, _⟩ := hc
            subst hc1
            exact ⟨by rw [hh1], es, by rw [htk]; exact hes, hh1⟩
        · have hlt : w < (s :: rest).length := Nat.lt_of_not_le hall
          rw [addLoop_succ_ok_rest he hlt] at hl
          rcases hres : addLoop enc fuel h1.flush ((s :: rest).drop w)
            with _ | ⟨h2, cs'⟩ <;> rw [hres] at hl
          · cases hl
          · cases hl
            have hht1 : h1.hasTraces = true := by rw [hh1]
            have hfl := flush_of_hasTraces hht1
            have hdr1 : h1.flush.drops = h.drops := by rw [hfl, hh1]
            have hsucc2 : h'.drops = h1.flush.drops := by rw [hdr1]; exact hsucc
            obtain ⟨hjoin, ⟨ess', hfa, hesall⟩, hlen, _⟩ := ih hres hsucc2
            have hcs' : cs' ≠ [] := by
              intro hcs0
              rw [hcs0] at hjoin
              have : ((s :: rest).drop w).length = 0 := by rw [← hjoin]; rfl
              rw [List.length_drop] at this
              omega
            refine ⟨?_, ⟨es :: ess', List.Forall₂.cons hes hfa, ?_⟩, ?_, ?_⟩
            · simp only [List.flatten_cons, hjoin, List.take_append_drop]
            · have := encodedSpans_append hes hesall
              rw [List.take_append_drop] at this
              simpa using this
            · have hst : h1.flush.stdout.length = h.stdout.length + 1 := by
                rw [hfl, hh1]; simp
              rw [hlen, hst]
              have : 1 ≤ cs'.length := by
                cases cs' with
                | nil => exact absurd rfl hcs'
                | cons a b => simp
              simp only [List.length_cons]
              omega
            · intro c hc
              rw [List.cons.injEq] at hc
              exact absurd hc.2 hcs'

/-- Size invariant of the `add` loop: starting from a buffer of at most
`payloadLimit - 1` bytes whose past writes were at most `payloadLimit + 5`
bytes, the loop ends with a buffer of at most `payloadLimit - 1` bytes and
every write (old and new) at most `payloadLimit + 5` bytes.  The
`payloadLimit + 5` worst case is an entry buffer of `payloadLimit - 1`
bytes, a 3-byte opener and closing bracket kept by the zero-span break,
and the 2-byte terminator added by `flush`. -/
theorem addLoop_size_inv {fuel : Nat} {h h' : LambdaTraceWriter Span}
    {trace : List Span} {cs : List (List Span)}
    (hl : addLoop enc fuel h trace = some (h', cs))
    (hp : h.payload.length ≤ payloadLimit - 1)
    (hw : ∀ b ∈ h.stdout, b.length ≤ payloadLimit + 5) :
    h'.payload.length ≤ payloadLimit - 1 ∧
      ∀ b ∈ h'.stdout, b.length ≤ payloadLimit + 5 := by
  induction fuel generalizing h trace cs with
  | zero =>
    cases trace with
    | nil => rw [addLoop_nil] at hl; cases hl; exact ⟨hp, hw⟩
    | cons s rest => rw [addLoop_zero] at hl; cases hl
  | succ fuel ih =>
    cases trace with
    | nil => rw [addLoop_nil] at hl; cases hl; exact ⟨hp, hw⟩
    | cons s rest =>
      rcases he : addTrace enc h (s :: rest) with ⟨res, h1⟩
      cases res with
      | err r =>
        rw [addLoop_succ_err he] at hl; cases hl
        obtain ⟨hh1, _⟩ := addTrace_err he
        subst hh1
        exact ⟨hp, hw⟩
      | ok w =>
        obtain ⟨es, hes, hh1⟩ := addTrace_ok he
        by_cases hall : (s :: rest).length ≤ w
        · rw [addLoop_succ_ok_all he hall] at hl; cases hl
          refine ⟨addTrace_ok_full (by simp) hall he, ?_⟩
          rw [hh1]
          exact hw
        · have hlt : w < (s :: rest).length := Nat.lt_of_not_le hall
          rw [addLoop_succ_ok_rest he hlt] at hl
          rcases hres : addLoop enc fuel h1.flush ((s :: rest).drop w)
            with _ | ⟨h2, cs'⟩ <;> rw [hres] at hl
          · cases hl
          · cases hl
            have hht1 : h1.hasTraces = true := by rw [hh1]
            have hfl := flush_of_hasTraces hht1
            have hpl : payloadLimit = 262144 := rfl
            have hhd : tracesHeader.length = 12 := rfl
            have hp1 : h1.payload.length ≤ payloadLimit + 3 := by
              have := addTrace_ok_le he
              omega
            refine ih hres ?_ ?_
            · rw [hfl]
              simp only [hhd]
              omega
            · rw [hfl]
              intro b hb
              simp only [List.mem_append, List.mem_singleton] at hb
              rcases hb with hb | hb
              · have hst1 : h1.stdout = h.stdout := by rw [hh1]
                rw [hst1] at hb
                exact hw b hb
              · subst hb
                simp only [List.length_append, List.length_cons, List.length_nil]
                omega

/-- `add` and `addChunks` are the two projections of one completed loop
run: the default fuel `2 * trace.length + 1` is always sufficient. -/
theorem addLoop_spec (enc : Span → Option Bytes) (h : LambdaTraceWriter Span)
    (trace : List Span) :
    ∃ h' cs, addLoop enc (2 * trace.length + 1) h trace = some (h', cs) ∧
      h.add enc trace = h' ∧ h.addChunks enc trace = cs := by
  have hfuel : 2 * trace.length + (if h.hasTraces then 1 else 0)
      ≤ 2 * trace.length + 1 := by
    cases h.hasTraces <;> simp
  have hs : (addLoop enc (2 * trace.length + 1) h trace).isSome :=
    addLoop_isSome hfuel
  rcases hl : addLoop enc (2 * trace.length + 1) h trace with _ | ⟨h', cs⟩
  · rw [hl] at hs; cases hs
  · exact ⟨h', cs, rfl, by simp [add, hl], by simp [addChunks, hl]⟩

theorem goodState_run {h : LambdaTraceWriter Span} (op : LWOp Span)
    (hg : GoodState h) : GoodState (LWOp.run enc h op) := by
  obtain ⟨hp, hw⟩ := hg
  cases op with
  | add trace =>
    obtain ⟨h', cs, hl, hadd, _⟩ := addLoop_spec enc h trace
    have := addLoop_size_inv hl hp hw
    simpa [LWOp.run, hadd] using this
  | flush =>
    by_cases hht : h.hasTraces
    · have hfl := flush_of_hasTraces hht
      constructor
      · show (h.flush).payload.length ≤ _
        rw [hfl]
        show tracesHeader.length ≤ payloadLimit - 1
        decide
      · show ∀ b ∈ (h.flush).stdout, _
        rw [hfl]
        intro b hb
        simp only [List.mem_append, List.mem_singleton] at hb
        rcases hb with hb | hb
        · exact hw b hb
        · subst hb
          simp only [List.length_append, List.length_cons, List.length_nil]
          have hpl : payloadLimit = 262144 := rfl
          omega
    · have hfl := flush_of_not_hasTraces (by simpa using hht)
      show GoodState h.flush
      rw [hfl]
      exact ⟨hp, hw⟩

theorem goodState_runOps (enc : Span → Option Bytes) (ops : List (LWOp Span)) :
    GoodState (runOps enc ops) := by
  suffices hstep : ∀ (h : LambdaTraceWriter Span), GoodState h →
      GoodState (List.foldl (LWOp.run enc) h ops) by
    refine hstep _ ⟨?_, by simp [newLambdaTraceWriter, resetPayload]⟩
    have hpl : payloadLimit = 262144 := rfl
    have hhd : (newLambdaTraceWriter Span).payload.length = 12 := rfl
    omega
  induction ops with
  | nil => exact fun h hg => hg
  | cons op rest ih =>
    intro h hg
    exact ih _ (goodState_run op hg)

end LambdaTraceWriter

/-! ### Claim theorems on the log exporter -/

open LambdaTraceWriter

/-- C9: calling `add` on the log exporter with an empty trace is a complete
no-op: the `for len(trace) > 0` loop never runs, so the buffer, the
`hasTraces` flag, the drop counters and the log sink are all unchanged, no
flush occurs, and no trace-array entry is produced. -/
theorem C9_empty_trace_noop {Span : Type} (enc : Span → Option Bytes)
    (h : LambdaTraceWriter Span) :
    h.add enc [] = h ∧ h.addChunks enc [] = [] :=
  ⟨rfl, rfl⟩

/-- C8: `add` on the log exporter terminates for every finite trace:
`2 * trace.length + 1` iterations of the append-flush-retry loop always
complete it, and it ends either with every span written across the
produced trace-array chunks or with the whole remaining trace dropped and
counted once under a specific reason. -/
theorem C8_accept_terminates {Span : Type} (enc : Span → Option Bytes)
    (h : LambdaTraceWriter Span) (trace : List Span) :
    ∃ h' cs, addLoop enc (2 * trace.length + 1) h trace = some (h', cs) ∧
      h.add enc trace = h' ∧
      (h'.drops = h.drops ∧ cs.flatten = trace ∨
        ∃ r, (r = "encoding_failed" ∨ r = "trace_too_large") ∧
          h'.drops = h.drops ++ [r]) := by
  obtain ⟨h', cs, hl, hadd, _⟩ := addLoop_spec enc h trace
  refine ⟨h', cs, hl, hadd, ?_⟩
  by_cases hdr : h'.drops = h.drops
  · exact Or.inl ⟨hdr, (addLoop_ok_char hl hdr).1⟩
  · obtain ⟨r, hr, hdr2, _⟩ := addLoop_fail_char hl hdr
    exact Or.inr ⟨r, hr, hdr2⟩

/-- C2: on an empty batch (buffer in its reset state), `add` with a trace
whose first span encodes to more than 256 KiB drops the whole trace,
counts exactly one drop with reason `trace_too_large`, writes nothing to
the log sink, and leaves the buffer byte-for-byte as it was. -/
theorem C2_first_span_too_large {Span : Type} (enc : Span → Option Bytes)
    (h : LambdaTraceWriter Span) (s : Span) (rest : List Span) (js : Bytes)
    (hreset : h.payload = tracesHeader) (hht : h.hasTraces = false)
    (henc : enc s = some js) (hbig : 262144 < js.length) :
    h.add enc (s :: rest) = { h with drops := h.drops ++ ["trace_too_large"] } := by
  have hp0len : (h.payload ++ opener h.hasTraces).length = 13 := by
    rw [hreset, hht]; rfl
  have hbig2 : payloadLimit - 2 <
      ((h.payload ++ opener h.hasTraces) ++ js).length := by
    rw [List.length_append, hp0len]
    have hpl : payloadLimit = 262144 := rfl
    omega
  have hfst : (true && !h.hasTraces) = true := by rw [hht]; rfl
  have hloop : addTraceLoop enc h.hasTraces h.payload.length
      (h.payload ++ opener h.hasTraces) (s :: rest) true 0 =
      .fail (((h.payload ++ opener h.hasTraces) ++ js).take h.payload.length)
        "trace_too_large" :=
    addTraceLoop_cons_big henc hbig2 hfst
  have htake : ((h.payload ++ opener h.hasTraces) ++ js).take h.payload.length
      = h.payload := by
    rw [List.append_assoc, take_append_le (Nat.le_refl _), List.take_length]
  rw [htake] at hloop
  have hat : addTrace enc h (s :: rest) = (.err "trace_too_large", h) :=
    addTrace_eq_fail hloop
  have hl : addLoop enc (2 * (s :: rest).length + 1) h (s :: rest) =
      some ({ h with drops := h.drops ++ ["trace_too_large"] }, []) :=
    addLoop_succ_err hat
  simp only [add, hl]

/-- Witness for C2: a fresh writer given a single span encoding to 262145
bytes drops it as `trace_too_large` and is otherwise untouched. -/
theorem C2_first_span_too_large_witness :
    (newLambdaTraceWriter Unit).add (fun _ => some (List.replicate 262145 48))
        [()] =
      { newLambdaTraceWriter Unit with
        drops := (newLambdaTraceWriter Unit).drops ++ ["trace_too_large"] } :=
  C2_first_span_too_large (fun _ => some (List.replicate 262145 48))
    (newLambdaTraceWriter Unit) () [] (List.replicate 262145 48) rfl rfl rfl
    (by rw [List.length_replicate]; omega)

/-- C3: whenever `add` records no drop, the trace-array chunks it produced
partition the original trace span-for-span in order; every chunk's spans
have their encoded content intact (the per-chunk encodings concatenate to
the encoding of the whole trace); and all chunks but the last were each
emitted in their own flushed payload — so a split trace differs from an
unsplit one only by appearing as several trace-array entries. -/
theorem C3_split_preserves_spans {Span : Type} (enc : Span → Option Bytes)
    (h : LambdaTraceWriter Span) (trace : List Span)
    (hsucc : (h.add enc trace).drops = h.drops) :
    (h.addChunks enc trace).flatten = trace ∧
    (∃ ess, List.Forall₂ (fun c es => encodedSpans enc c = some es)
        (h.addChunks enc trace) ess ∧
      encodedSpans enc trace = some ess.flatten) ∧
    (h.add enc trace).stdout.length =
      h.stdout.length + ((h.addChunks enc trace).length - 1) := by
  obtain ⟨h', cs, hl, hadd, hchunks⟩ := addLoop_spec enc h trace
  rw [hadd] at hsucc
  rw [hadd, hchunks]
  obtain ⟨h1, h2, h3, _⟩ := addLoop_ok_char hl hsucc
  exact ⟨h1, h2, h3⟩

/-- Witness for C3: one span of one byte is carried over intact into a
single trace-array entry. -/
theorem C3_split_preserves_spans_witness :
    ((newLambdaTraceWriter Unit).addChunks (fun _ => some [48]) [()]).flatten
        = [()] ∧
    (∃ ess, List.Forall₂
        (fun c es => encodedSpans (fun _ => some [48]) c = some es)
        ((newLambdaTraceWriter Unit).addChunks (fun _ => some [48]) [()]) ess ∧
      encodedSpans (fun _ => some [48]) [()] = some ess.flatten) ∧
    ((newLambdaTraceWriter Unit).add (fun _ => some [48]) [()]).stdout.length =
      (newLambdaTraceWriter Unit).stdout.length +
        (((newLambdaTraceWriter Unit).addChunks (fun _ => some [48])
          [()]).length - 1) :=
  C3_split_preserves_spans (fun _ => some [48]) (newLambdaTraceWriter Unit) [()]
    (by decide)

/-- C1 amended: for every sequence of `add`/`flush` calls on the log
exporter, every payload written to the log sink is at most
`payloadLimit + 5 = 262149` bytes.  (The claimed 262144-byte bound fails:
the size check `payload.Len() > payloadLimit-2` reserves the two closing
bytes but not the `]` closing a trace array, nor the up-to-4 bytes that an
empty trace-array entry `, []` appends after a zero-span break, see the
counterexample.) -/
theorem C1_payload_bound {Span : Type} (enc : Span → Option Bytes)
    (ops : List (LWOp Span)) (b : Bytes) (hb : b ∈ (runOps enc ops).stdout) :
    b.length ≤ payloadLimit + 5 :=
  (goodState_runOps enc ops).2 b hb

/-- Witness for the amended C1: a one-byte span produces one 17-byte
write, within the bound. -/
theorem C1_payload_bound_witness :
    (tracesHeader ++ [91, 48, 93, 93, 125]) ∈
      (runOps (fun _ : Unit => some [48]) [LWOp.add [()], LWOp.flush]).stdout ∧
    (tracesHeader ++ [91, 48, 93, 93, 125]).length ≤ payloadLimit + 5 := by
  have hmem : (tracesHeader ++ [91, 48, 93, 93, 125]) ∈
      (runOps (fun _ : Unit => some [48]) [LWOp.add [()], LWOp.flush]).stdout := by
    decide
  exact ⟨hmem, C1_payload_bound (fun _ : Unit => some [48])
    [LWOp.add [()], LWOp.flush] _ hmem⟩

/-- Counterexample to C1 as stated: a single span whose encoding is
262129 bytes fills the buffer to exactly `payloadLimit - 2 = 262142` bytes
(header 12, opener 1, span 262129), which passes the strict size check;
closing the trace array (`]`) and the flush terminator (`]\x7d`) then make
the written payload 262145 bytes — more than 256 KiB. -/
theorem C1_counterexample :
    ∃ b ∈ (runOps (fun _ : Unit => some (List.replicate 262129 48))
        [LWOp.add [()], LWOp.flush]).stdout, 262144 < b.length := by
  have h12 : (newLambdaTraceWriter Unit).payload.length = 12 := rfl
  have hpl : payloadLimit = 262144 := rfl
  have h13 : ((newLambdaTraceWriter Unit).payload ++
      opener (newLambdaTraceWriter Unit).hasTraces).length = 13 := rfl
  have henc : (fun _ : Unit => some (List.replicate 262129 48)) () =
      some (List.replicate 262129 48) := rfl
  have hnotbig : ¬ payloadLimit - 2 <
      (((newLambdaTraceWriter Unit).payload ++
        opener (newLambdaTraceWriter Unit).hasTraces) ++
        List.replicate 262129 48).length := by
    rw [List.length_append, h13, List.length_replicate, hpl]
    omega
  have hstep : addTraceLoop (fun _ : Unit => some (List.replicate 262129 48))
      (newLambdaTraceWriter Unit).hasTraces
      (newLambdaTraceWriter Unit).payload.length
      ((newLambdaTraceWriter Unit).payload ++
        opener (newLambdaTraceWriter Unit).hasTraces) [()] true 0 =
      addTraceLoop (fun _ : Unit => some (List.replicate 262129 48))
        (newLambdaTraceWriter Unit).hasTraces
        (newLambdaTraceWriter Unit).payload.length
        (((newLambdaTraceWriter Unit).payload ++
          opener (newLambdaTraceWriter Unit).hasTraces) ++
          List.replicate 262129 48) [] false 1 :=
    addTraceLoop_cons_fits henc hnotbig
  have hloop : addTraceLoop (fun _ : Unit => some (List.replicate 262129 48))
      (newLambdaTraceWriter Unit).hasTraces
      (newLambdaTraceWriter Unit).payload.length
      ((newLambdaTraceWriter Unit).payload ++
        opener (newLambdaTraceWriter Unit).hasTraces) [()] true 0 =
      .done (((newLambdaTraceWriter Unit).payload ++
        opener (newLambdaTraceWriter Unit).hasTraces) ++
        List.replicate 262129 48) 1 := by
    rw [hstep, addTraceLoop_nil]
  have hat : addTrace (fun _ : Unit => some (List.replicate 262129 48))
      (newLambdaTraceWriter Unit) [()] =
      (.ok 1, { newLambdaTraceWriter Unit with
        payload := ((((newLambdaTraceWriter Unit).payload ++
          opener (newLambdaTraceWriter Unit).hasTraces) ++
          List.replicate 262129 48)) ++ [93],
        hasTraces := true }) :=
    addTrace_eq_done hloop
  have hl : addLoop (fun _ : Unit => some (List.replicate 262129 48))
      (2 * ([()] : List Unit).length + 1) (newLambdaTraceWriter Unit) [()] =
      some ({ newLambdaTraceWriter Unit with
        payload := ((((newLambdaTraceWriter Unit).payload ++
          opener (newLambdaTraceWriter Unit).hasTraces) ++
          List.replicate 262129 48)) ++ [93],
        hasTraces := true }, [[()]]) :=
    addLoop_succ_ok_all hat (by simp)
  have hadd : (newLambdaTraceWriter Unit).add
      (fun _ : Unit => some (List.replicate 262129 48)) [()] =
      { newLambdaTraceWriter Unit with
        payload := ((((newLambdaTraceWriter Unit).payload ++
          opener (newLambdaTraceWriter Unit).hasTraces) ++
          List.replicate 262129 48)) ++ [93],
        hasTraces := true } := by
    obtain ⟨h2, cs2, hl2, hadd2, _⟩ := addLoop_spec
      (fun _ : Unit => some (List.replicate 262129 48))
      (newLambdaTraceWriter Unit) [()]
    rw [hl] at hl2
    rw [hadd2]
    exact (congrArg (fun o => (o.getD (newLambdaTraceWriter Unit, [])).1)
      hl2.symm : _)
  have hrun1 : LWOp.run (fun _ : Unit => some (List.replicate 262129 48))
      (newLambdaTraceWriter Unit) (LWOp.add [()]) =
      { newLambdaTraceWriter Unit with
        payload := ((((newLambdaTraceWriter Unit).payload ++
          opener (newLambdaTraceWriter Unit).hasTraces) ++
          List.replicate 262129 48)) ++ [93],
        hasTraces := true } := hadd
  have hrun : runOps (fun _ : Unit => some (List.replicate 262129 48))
      [LWOp.add [()], LWOp.flush] =
      LambdaTraceWriter.flush { newLambdaTraceWriter Unit with
        payload := ((((newLambdaTraceWriter Unit).payload ++
          opener (newLambdaTraceWriter Unit).hasTraces) ++
          List.replicate 262129 48)) ++ [93],
        hasTraces := true } := by
    rw [runOps, List.foldl_cons, List.foldl_cons, List.foldl_nil, hrun1]
    rfl
  refine ⟨(((((newLambdaTraceWriter Unit).payload ++
      opener (newLambdaTraceWriter Unit).hasTraces) ++
      List.replicate 262129 48)) ++ [93]) ++ [93, 125], ?_, ?_⟩
  · rw [hrun, flush_of_hasTraces rfl]
    exact List.mem_append.mpr (Or.inr (List.mem_singleton.mpr rfl))
  · have hop : (opener (newLambdaTraceWriter Unit).hasTraces).length = 1 := rfl
    rw [List.length_append, List.length_append, List.length_append,
      List.length_append, List.length_replicate, h12, hop,
      show ([93] : Bytes).length = 1 from rfl,
      show ([93, 125] : Bytes).length = 2 from rfl]
    omega

/-! ### Claim theorems on the push exporter -/

/-- Every reachable push-exporter state holds at most `L` `climit` slots:
each launch requires a free slot and each completed delivery releases
one. -/
theorem areachable_tasks_le {Trace : Type} {encT : Trace → Option Nat}
    {K L : Nat} {s : AgentWriter Trace} (h : AReachable encT K L s) :
    s.tasks.length ≤ L := by
  induction h with
  | init => exact Nat.zero_le L
  | step hr hstep ih =>
    cases hstep with
    | add_small hpush hsz => exact ih
    | add_flush hpush hsz hlt =>
      simp only [List.length_append, List.length_cons, List.length_nil]
      omega
    | add_err_small henc hsz => exact ih
    | add_err_flush henc hsz hlt =>
      simp only [List.length_append, List.length_cons, List.length_nil]
      omega
    | flush_empty h0 => exact ih
    | flush_launch h0 hlt =>
      simp only [List.length_append, List.length_cons, List.length_nil]
      omega
    | task_done_ok dec htasks =>
      rw [htasks] at ih
      simp only [List.length_append, List.length_cons] at ih ⊢
      omega
    | task_done_fail htasks =>
      rw [htasks] at ih
      simp only [List.length_append, List.length_cons] at ih ⊢
      omega
    | stop_ret h0 => exact ih

/-- C7: in every reachable push-exporter state at most `L` delivery tasks
are in flight, and when exactly `L` are in flight no step labelled `flush`
or `add` can launch another (the send on the full `climit` channel blocks
the caller until a completion frees a slot): any such step leaves the task
list unchanged. -/
theorem C7_concurrency_limit {Trace : Type} (encT : Trace → Option Nat)
    (K L : Nat) (s : AgentWriter Trace) (hreach : AReachable encT K L s) :
    s.tasks.length ≤ L ∧
    (s.tasks.length = L →
      (∀ s', AStep encT K L s .flushReq s' → s'.tasks = s.tasks) ∧
      (∀ t s', AStep encT K L s (.add t) s' → s'.tasks = s.tasks)) := by
  refine ⟨areachable_tasks_le hreach, fun hfull => ⟨?_, ?_⟩⟩
  · intro s' hstep
    cases hstep with
    | flush_empty h0 => rfl
    | flush_launch h0 hlt => omega
  · intro t s' hstep
    cases hstep with
    | add_small hpush hsz => rfl
    | add_flush hpush hsz hlt => omega
    | add_err_small henc hsz => rfl
    | add_err_flush henc hsz hlt => omega

/-- Witness for C7 at the initial state of a concrete instantiation. -/
theorem C7_concurrency_limit_witness :
    (newAgentTraceWriter Unit).tasks.length ≤ 1 ∧
    ((newAgentTraceWriter Unit).tasks.length = 1 →
      (∀ s', AStep (fun _ : Unit => some 1) 10 1 (newAgentTraceWriter Unit)
        .flushReq s' → s'.tasks = (newAgentTraceWriter Unit).tasks) ∧
      (∀ t s', AStep (fun _ : Unit => some 1) 10 1 (newAgentTraceWriter Unit)
        (.add t) s' → s'.tasks = (newAgentTraceWriter Unit).tasks)) :=
  C7_concurrency_limit (fun _ : Unit => some 1) 10 1 (newAgentTraceWriter Unit)
    AReachable.init

/-- C5: a `flush` step on a non-empty Buffer hands the current payload to
exactly one new delivery task, installs a fresh empty payload before
returning, performs no send itself, and any following `add` step appends
only to the exporter state (current payload, possibly launching its own
task): the already-detached payloads in `tasks` are never modified. -/
theorem C5_flush_detaches {Trace : Type} (encT : Trace → Option Nat)
    (K L : Nat) (s s' : AgentWriter Trace)
    (hne : s.payload.itemCount ≠ 0)
    (hstep : AStep encT K L s .flushReq s') :
    s'.payload = Payload.newPayload ∧
    s'.tasks = s.tasks ++ [s.payload] ∧
    s'.sends = s.sends ∧ s'.metrics = s.metrics ∧
    (∀ t s'', AStep encT K L s' (.add t) s'' →
      (∃ launched, s''.tasks = s'.tasks ++ launched) ∧ s''.sends = s'.sends) := by
  cases hstep with
  | flush_empty h0 => exact absurd h0 hne
  | flush_launch h0 hlt =>
    refine ⟨rfl, rfl, rfl, rfl, ?_⟩
    intro t s'' hstep2
    cases hstep2 with
    | add_small hpush hsz => exact ⟨⟨[], by simp⟩, rfl⟩
    | add_flush hpush hsz hlt2 => exact ⟨⟨_, rfl⟩, rfl⟩
    | add_err_small henc hsz => exact ⟨⟨[], by simp⟩, rfl⟩
    | add_err_flush henc hsz hlt2 => exact ⟨⟨_, rfl⟩, rfl⟩

/-- Witness for C5: flushing a one-trace Buffer with a free slot. -/
theorem C5_flush_detaches_witness :
    sampleAgentFlushed.payload = Payload.newPayload ∧
    sampleAgentFlushed.tasks =
      sampleAgentOneTrace.tasks ++ [sampleAgentOneTrace.payload] ∧
    sampleAgentFlushed.sends = sampleAgentOneTrace.sends ∧
    sampleAgentFlushed.metrics = sampleAgentOneTrace.metrics ∧
    (∀ t s'', AStep (fun _ : Unit => some 1) 10 2 sampleAgentFlushed
        (.add t) s'' →
      (∃ launched, s''.tasks = sampleAgentFlushed.tasks ++ launched) ∧
      s''.sends = sampleAgentFlushed.sends) :=
  C5_flush_detaches (fun _ : Unit => some 1) 10 2 sampleAgentOneTrace
    sampleAgentFlushed (by decide) (AStep.flush_launch (by decide) (by decide))

/-- C6: on both exporters, flushing with an empty batch is a no-op: a
`flush` step of the push exporter whose payload holds zero traces leaves
the state (payload, tasks, sends, metrics) unchanged and launches
nothing; `flush` on the log exporter without buffered traces returns the
writer unchanged: no log-sink write, no metric, no reset. -/
theorem C6_empty_flush_noop {Trace Span : Type} (encT : Trace → Option Nat)
    (K L : Nat) (s s' : AgentWriter Trace) (h : LambdaTraceWriter Span) :
    (AStep encT K L s .flushReq s' → s.payload.itemCount = 0 → s' = s) ∧
    (h.hasTraces = false → h.flush = h) := by
  constructor
  · intro hstep hempty
    cases hstep with
    | flush_empty h0 => rfl
    | flush_launch h0 hlt => exact absurd hempty h0
  · exact flush_of_not_hasTraces

/-- Witness for C6: both no-ops at fresh exporters. -/
theorem C6_empty_flush_noop_witness :
    newAgentTraceWriter Unit = newAgentTraceWriter Unit ∧
    (newLambdaTraceWriter Unit).flush = newLambdaTraceWriter Unit :=
  ⟨(C6_empty_flush_noop (fun _ : Unit => some 1) 10 1 (newAgentTraceWriter Unit)
      (newAgentTraceWriter Unit) (newLambdaTraceWriter Unit)).1
      (AStep.flush_empty rfl) rfl,
   (C6_empty_flush_noop (fun _ : Unit => some 1) 10 1 (newAgentTraceWriter Unit)
      (newAgentTraceWriter Unit) (newLambdaTraceWriter Unit)).2 rfl⟩

/-- C10: a `stop` return of the push exporter changes nothing — the
current Buffer keeps the traces accepted but not yet flushed, nothing is
sent and no metric is emitted — and it is only possible once every
delivery task launched before it has completed (`wg.Wait`). -/
theorem C10_stop_frame {Trace : Type} (encT : Trace → Option Nat) (K L : Nat)
    (s s' : AgentWriter Trace) (hstep : AStep encT K L s .stopRet s') :
    s' = s ∧ s.tasks = [] := by
  cases hstep with
  | stop_ret h0 => exact ⟨rfl, h0⟩

/-- Witness for C10: stopping with one unflushed trace in the Buffer
leaves it there. -/
theorem C10_stop_frame_witness :
    sampleAgentOneTrace = sampleAgentOneTrace ∧
    sampleAgentOneTrace.tasks = [] :=
  C10_stop_frame (fun _ : Unit => some 1) 10 1 sampleAgentOneTrace
    sampleAgentOneTrace (AStep.stop_ret rfl)

/-! ### Claim C4: per-accept dichotomy on both exporters -/

/-- A successful `push` appends the trace, growing the recorded size by
its exact encoded size and the item count by one. -/
theorem Payload.push_eq_some {Trace : Type} {encT : Trace → Option Nat}
    {p p1 : Payload Trace} {t : Trace} (h : p.push encT t = some p1) :
    ∃ n, encT t = some n ∧ p1 = ⟨p.data ++ [t]⟩ ∧
      p1.size encT = p.size encT + n ∧ p1.itemCount = p.itemCount + 1 := by
  unfold Payload.push at h
  rcases he : encT t with _ | n <;> rw [he] at h
  · cases h
  · rw [Option.map_some'] at h
    cases h
    refine ⟨n, rfl, rfl, ?_, ?_⟩
    · simp [Payload.size, List.map_append, he]
    · simp [Payload.itemCount]

theorem dropCount_append (a b : List Metric) :
    dropCount (a ++ b) = dropCount a + dropCount b := by
  simp [dropCount, List.filter_append]

theorem dropCount_flushTriggered : dropCount [Metric.flushTriggered] = 0 := rfl

theorem dropCount_dropped (r : String) (n : Nat) :
    dropCount [Metric.dropped r n] = 1 := rfl

/-- Counterexample to C4 as stated: on the log exporter, `add` with an
empty trace records no drop, opens no trace-array entry and leaves the
buffer size unchanged — so neither of the two claimed alternatives (exact
size/count increase, or one drop counted) holds for that accepted
trace. -/
theorem C4_counterexample :
    (newLambdaTraceWriter Unit).add (fun _ => some [48]) []
        = newLambdaTraceWriter Unit ∧
    ¬ ((((newLambdaTraceWriter Unit).add (fun _ => some [48]) []).payload.length
          = (newLambdaTraceWriter Unit).payload.length +
            (opener (newLambdaTraceWriter Unit).hasTraces).length +
            (entryBody []).length + 1 ∧
        ((newLambdaTraceWriter Unit).addChunks (fun _ => some [48]) []).length
          = 1) ∨
      ((newLambdaTraceWriter Unit).add (fun _ => some [48]) []).drops.length
        = (newLambdaTraceWriter Unit).drops.length + 1) :=
  ⟨rfl, by decide⟩

/-- C4 amended: on the push exporter every `add` step either pushes the
trace — the targeted Buffer grows by its exact encoded size and one item,
it stays current or is detached whole by the threshold flush, and no drop
is counted — or, exclusively (the trace fails to encode), exactly one
`traces_dropped` count with reason `encoding_error` is emitted and the
Buffer is left in its pre-append state (possibly detached unchanged).  On
the log exporter every nonempty accepted trace either has all its spans
written across the produced trace-array entries with no drop (growing the
buffer by the exact encoded entry when a single entry suffices and no
flush intervenes), or, exclusively, exactly one drop is counted under one
of the two specific reasons, and when no flush happened during the call
the buffer and flag are rolled back to their pre-call state.  An empty
trace is a complete no-op (see the counterexample). -/
theorem C4_accept_dichotomy :
    (∀ (Trace : Type) (encT : Trace → Option Nat) (K L : Nat)
      (s s' : AgentWriter Trace) (t : Trace),
      AStep encT K L s (.add t) s' →
      ((∃ n p1, encT t = some n ∧ s.payload.push encT t = some p1 ∧
          p1.size encT = s.payload.size encT + n ∧
          p1.itemCount = s.payload.itemCount + 1 ∧
          (s'.payload = p1 ∨ s'.tasks = s.tasks ++ [p1]) ∧
          dropCount s'.metrics = dropCount s.metrics) ∨
        (encT t = none ∧
          dropCount s'.metrics = dropCount s.metrics + 1 ∧
          (∃ ms, s'.metrics = s.metrics ++ Metric.dropped "encoding_error" 1 :: ms ∧
            dropCount ms = 0) ∧
          (s'.payload = s.payload ∨ s'.tasks = s.tasks ++ [s.payload])))) ∧
    (∀ (Span : Type) (enc : Span → Option Bytes) (h : LambdaTraceWriter Span)
      (trace : List Span), trace ≠ [] →
      (((h.add enc trace).drops = h.drops ∧
          (h.addChunks enc trace).flatten = trace ∧
          (∀ c, h.addChunks enc trace = [c] →
            ∃ es, encodedSpans enc trace = some es ∧
              h.add enc trace = { h with
                payload := h.payload ++ opener h.hasTraces ++ entryBody es ++ [93],
                hasTraces := true })) ∨
        (∃ r, (r = "encoding_failed" ∨ r = "trace_too_large") ∧
          (h.add enc trace).drops = h.drops ++ [r] ∧
          ((h.add enc trace).stdout = h.stdout →
            (h.add enc trace).payload = h.payload ∧
            (h.add enc trace).hasTraces = h.hasTraces)))) := by
  constructor
  · intro Trace encT K L s s' t hstep
    cases hstep with
    | add_small hpush hsz =>
      obtain ⟨n, hn, _, hsize, hcount⟩ := Payload.push_eq_some hpush
      exact Or.inl ⟨n, _, hn, hpush, hsize, hcount, Or.inl rfl, rfl⟩
    | add_flush hpush hsz hlt =>
      obtain ⟨n, hn, _, hsize, hcount⟩ := Payload.push_eq_some hpush
      refine Or.inl ⟨n, _, hn, hpush, hsize, hcount, Or.inr rfl, ?_⟩
      show dropCount (s.metrics ++ [Metric.flushTriggered]) = dropCount s.metrics
      rw [dropCount_append, dropCount_flushTriggered, Nat.add_zero]
    | add_err_small henc hsz =>
      refine Or.inr ⟨henc, ?_, ⟨[], rfl, rfl⟩, Or.inl rfl⟩
      show dropCount (s.metrics ++ [Metric.dropped "encoding_error" 1])
        = dropCount s.metrics + 1
      rw [dropCount_append, dropCount_dropped]
    | add_err_flush henc hsz hlt =>
      refine Or.inr ⟨henc, ?_, ⟨[Metric.flushTriggered], rfl, rfl⟩, Or.inr rfl⟩
      show dropCount (s.metrics ++
        [Metric.dropped "encoding_error" 1, Metric.flushTriggered])
        = dropCount s.metrics + 1
      rw [dropCount_append]
      rfl
  · intro Span enc h trace hne
    obtain ⟨h', cs, hl, hadd, hchunks⟩ := addLoop_spec enc h trace
    rw [hadd, hchunks]
    by_cases hdr : h'.drops = h.drops
    · obtain ⟨hjoin, _, _, hsingle⟩ := addLoop_ok_char hl hdr
      refine Or.inl ⟨hdr, hjoin, ?_⟩
      intro c hc
      obtain ⟨_, es, hes, hrec⟩ := hsingle c hc
      have hctrace : c = trace := by
        rw [hc] at hjoin
        simpa using hjoin
      rw [hctrace] at hes
      exact ⟨es, hes, hrec⟩
    · obtain ⟨r, hr, hdr2, hroll⟩ := addLoop_fail_char hl hdr
      exact Or.inr ⟨r, hr, hdr2, hroll⟩

/-- Witness for the amended C4: a successful push on a fresh push
exporter, and a one-span accept on a fresh log exporter. -/
theorem C4_accept_dichotomy_witness :
    ((∃ n p1, (fun _ : Unit => some 1) () = some n ∧
        (newAgentTraceWriter Unit).payload.push (fun _ : Unit => some 1) ()
          = some p1 ∧
        p1.size (fun _ : Unit => some 1)
          = (newAgentTraceWriter Unit).payload.size (fun _ : Unit => some 1)
            + n ∧
        p1.itemCount = (newAgentTraceWriter Unit).payload.itemCount + 1 ∧
        (sampleAgentAfterAdd.payload = p1 ∨
          sampleAgentAfterAdd.tasks
            = (newAgentTraceWriter Unit).tasks ++ [p1]) ∧
        dropCount sampleAgentAfterAdd.metrics
          = dropCount (newAgentTraceWriter Unit).metrics) ∨
      ((fun _ : Unit => some 1) () = none ∧
        dropCount sampleAgentAfterAdd.metrics
          = dropCount (newAgentTraceWriter Unit).metrics + 1 ∧
        (∃ ms, sampleAgentAfterAdd.metrics
            = (newAgentTraceWriter Unit).metrics ++
              Metric.dropped "encoding_error" 1 :: ms ∧
          dropCount ms = 0) ∧
        (sampleAgentAfterAdd.payload = (newAgentTraceWriter Unit).payload ∨
          sampleAgentAfterAdd.tasks
            = (newAgentTraceWriter Unit).tasks ++
              [(newAgentTraceWriter Unit).payload]))) ∧
    ((((newLambdaTraceWriter Unit).add (fun _ : Unit => some [48]) [()]).drops
          = (newLambdaTraceWriter Unit).drops ∧
        ((newLambdaTraceWriter Unit).addChunks (fun _ : Unit => some [48])
          [()]).flatten = [()] ∧
        (∀ c, (newLambdaTraceWriter Unit).addChunks (fun _ : Unit => some [48])
            [()] = [c] →
          ∃ es, encodedSpans (fun _ : Unit => some [48]) [()] = some es ∧
            (newLambdaTraceWriter Unit).add (fun _ : Unit => some [48]) [()]
              = { newLambdaTraceWriter Unit with
                  payload := (newLambdaTraceWriter Unit).payload ++
                    opener (newLambdaTraceWriter Unit).hasTraces ++
                    entryBody es ++ [93],
                  hasTraces := true })) ∨
      (∃ r, (r = "encoding_failed" ∨ r = "trace_too_large") ∧
        ((newLambdaTraceWriter Unit).add (fun _ : Unit => some [48])
          [()]).drops = (newLambdaTraceWriter Unit).drops ++ [r] ∧
        (((newLambdaTraceWriter Unit).add (fun _ : Unit => some [48])
            [()]).stdout = (newLambdaTraceWriter Unit).stdout →
          ((newLambdaTraceWriter Unit).add (fun _ : Unit => some [48])
            [()]).payload = (newLambdaTraceWriter Unit).payload ∧
          ((newLambdaTraceWriter Unit).add (fun _ : Unit => some [48])
            [()]).hasTraces = (newLambdaTraceWriter Unit).hasTraces))) :=
  ⟨C4_accept_dichotomy.1 Unit (fun _ => some 1) 10 1 (newAgentTraceWriter Unit)
    sampleAgentAfterAdd ()
    (AStep.add_small
      (show (newAgentTraceWriter Unit).payload.push (fun _ : Unit => some 1) ()
          = some ⟨[()]⟩ by decide)
      (by decide)),
   C4_accept_dichotomy.2 Unit (fun _ : Unit => some [48])
    (newLambdaTraceWriter Unit) [()] (by simp)⟩

end DDTrace
